import Mathlib

/-!
# MathAnimation `core.h`: the memory packing helpers

A shallow embedding of the byte-level helpers of `Animations/include/core.h`:

* `MemoryHelper::copyDataByType`, `MemoryHelper::copyDataToType`,
  `MemoryHelper::unpackData`, `sizeOfTypes`, `pack`, `unpack`, with the
  fallback macro `g_logger_assert`;
* the typed wrappers `RawMemory::write<T>` and `RawMemory::read<T>`, over the
  member functions of `RawMemory` that the header only declares;
* `findMatchingEnum`.

Conventions of the embedding.

* A byte (`uint8`) is a natural number below 256.
* An object of a trivially copyable type is the list of its `sizeof(T)` bytes
  in address order, each with the mark of a padding byte.  A typed assignment
  `*p = v` moves the bytes of the value and leaves the padding bytes of the
  destination as they are (the six trailing bytes of an x87 `long double`);
  padding that the compiler copies along with the value counts as a byte of
  the value.  A copy through `uint8*` moves every byte.
* A pointer to a block of bytes is the list of the bytes that may be accessed
  through it.  An access outside that list is undefined behaviour in C++ and
  is reported as a failure (`none`, or `UnpackError.invalidRead`).
* `size_t` quantities are natural numbers.  Every sum formed by the code adds
  extents of objects that live together in one address space, so none of them
  reaches `2 ^ 64`.
* The variadic templates `template<typename First, typename... Rest>` take the
  first argument and the list of the remaining ones, so the empty argument
  list, which does not instantiate, is not an input.
* A build is the pair of `_DEBUG` and `NDEBUG` being defined or not.
-/

namespace MathAnim

/-! ## Bytes, objects and raw memory accesses -/

/-- The byte type of `core.h`. -/
abbrev uint8 := Fin 256

/-- Object representation seen through `uint8*`: every byte of the object. -/
abbrev Value := List uint8

/-- One byte of an object of a trivially copyable type; `padding` marks a
byte that a typed assignment does not move. -/
structure ObjByte where
  byte : uint8
  padding : Bool
deriving DecidableEq, Repr

/-- An object of a trivially copyable type: its bytes in address order. -/
abbrev Object := List ObjByte

/-- The operator `sizeof`, applied to the type of an object: the number of its
bytes. -/
def sizeof {α : Type} (v : List α) : Nat := v.length

/-- The object representation of an object: all its bytes. -/
def bytesOf (o : Object) : Value := o.map (fun c => c.byte)

/-- An object of a type without padding that holds the given bytes. -/
def plain (bytes : Value) : Object := bytes.map (fun b => { byte := b, padding := false })

/-- The bytes of a destination after the typed assignment of `data` onto them:
the bytes of the value come from `data`, the padding bytes stay. -/
def assignBytes (data : Object) (old : List uint8) : List uint8 :=
  List.zipWith (fun c o => if c.padding then o else c.byte) data old

/-- The object in an output slot after the typed assignment of the object
found in the bytes `src`: the bytes of the value come from `src`, the padding
bytes of the slot stay. -/
def assignObject (slot : Object) (src : List uint8) : Object :=
  List.zipWith (fun c b => if c.padding then c else { byte := b, padding := false }) slot src

/-- Assignment `*(T*)(dst + offset) = data` for a trivially copyable `T`: a
typed assignment onto the `sizeof(T)` bytes starting at `offset`; every other
byte of the block keeps its content.  Writing outside the block is undefined
behaviour: `none`. -/
def storeAt (dst : List uint8) (offset : Nat) (data : Object) : Option (List uint8) :=
  if offset + sizeof data ≤ dst.length then
    some (dst.take offset ++ assignBytes data ((dst.drop offset).take (sizeof data))
      ++ dst.drop (offset + sizeof data))
  else
    none

/-- Assignment `*first = *(First*)(mem + offset)`: a typed assignment onto the
output object `slot` from the `sizeof(First)` bytes starting at `offset`.
Reading outside the block is undefined behaviour: `none`. -/
def loadAt (mem : List uint8) (offset : Nat) (slot : Object) : Option Object :=
  if offset + sizeof slot ≤ mem.length then
    some (assignObject slot ((mem.drop offset).take (sizeof slot)))
  else
    none

/-- A copy of all the bytes `src` into a block at `offset` (a `memcpy`);
`none` when it would leave the block. -/
def copyInto (dst : List uint8) (offset : Nat) (src : List uint8) : Option (List uint8) :=
  if offset + src.length ≤ dst.length then
    some (dst.take offset ++ src ++ dst.drop (offset + src.length))
  else
    none

/-- The `n` bytes of a block from `offset` on; `none` when they are not all
inside the block. -/
def bytesAt (mem : List uint8) (offset n : Nat) : Option (List uint8) :=
  if offset + n ≤ mem.length then some ((mem.drop offset).take n) else none

/-- The allocator `g_memory_allocate(n)`: a fresh block of `n` bytes whose
initial content is unspecified; `junk i` is the byte found at index `i`. -/
def g_memory_allocate (junk : Nat → uint8) (n : Nat) : List uint8 :=
  (List.range n).map junk

/-- The struct `SizedMemory`: `memory` is the pointer (the bytes behind it),
`size` the length field.  The two are independent fields: a caller may wrap
existing bytes with any `size`. -/
structure SizedMemory where
  memory : List uint8
  size : Nat
deriving DecidableEq, Repr

/-! ## The logger fallback -/

/-- The preprocessor state of a build: whether `_DEBUG` and `NDEBUG` are
defined. -/
structure Build where
  debug : Bool
  ndebug : Bool
deriving DecidableEq, Repr

/-- What an evaluation of `g_logger_assert(cond, msg)` does. -/
inductive AssertOutcome where
  /-- The condition holds: nothing happens. -/
  | passed
  /-- The message went to `std::cerr` and `assert(cond)` expanded to nothing. -/
  | logged
  /-- The message went to `std::cerr` and `assert(cond)` ended the program. -/
  | aborted
deriving DecidableEq, Repr

/-- The fallback macro `g_logger_assert(cond, msg)` of `core.h`: when `cond`
is false it writes the message to `std::cerr` and evaluates `assert(cond)`,
which ends the program unless `NDEBUG` is defined. -/
def g_logger_assert (ndebug : Bool) (cond : Bool) : AssertOutcome :=
  if cond then .passed else if ndebug then .logged else .aborted

/-- The number of messages an evaluation of `g_logger_assert` sends to
`std::cerr`. -/
def AssertOutcome.messages : AssertOutcome → Nat
  | .passed => 0
  | .logged => 1
  | .aborted => 1

/-! ## `MemoryHelper` -/

/-- `MemoryHelper::copyDataByType<T>(dst, offset, data)`: stores `data` at
`dst + offset` and returns `sizeof(T)`.  The result pairs the updated block
with the returned size. -/
def copyDataByType (dst : List uint8) (offset : Nat) (data : Object) :
    Option (List uint8 × Nat) :=
  match storeAt dst offset data with
  | none => none
  | some dst1 => some (dst1, sizeof data)

/-- `MemoryHelper::copyDataToType<First, Rest...>(dst, offset, data, rest...)`:
copies `data`, advances `offset` by the size returned, and recurses on `rest`
when `sizeof...(Rest) > 0`.  Returns the updated block. -/
def copyDataToType (dst : List uint8) (offset : Nat) (data : Object) (rest : List Object) :
    Option (List uint8) :=
  match copyDataByType dst offset data with
  | none => none
  | some (dst1, n) =>
    let offset1 := offset + n
    match rest with
    | [] => some dst1
    | r :: rs => copyDataToType dst1 offset1 r rs

/-- How `unpackData` can stop without a result. -/
inductive UnpackError where
  /-- The assertion "Buffer overrun while unpacking memory." ended the program. -/
  | bufferOverrun
  /-- The read left the bytes behind `memory.memory`: undefined behaviour. -/
  | invalidRead
deriving DecidableEq, Repr

deriving instance DecidableEq for Except

/-- What a call of `unpackData` leaves behind: the number of assertion
messages sent to `std::cerr`, and either the objects now in the output slots,
in order, or the way the call stopped. -/
structure UnpackOutcome where
  logged : Nat
  result : Except UnpackError (List Object)
deriving DecidableEq

/-- The first statement of `unpackData`: under `_DEBUG`,
`g_logger_assert(offset + sizeof(First) <= memory.size, "Buffer overrun while
unpacking memory.")`; nothing in a build without `_DEBUG`. -/
def overrunCheck (build : Build) (memory : SizedMemory) (offset : Nat) (first : Object) :
    AssertOutcome :=
  if build.debug then
    g_logger_assert build.ndebug (decide (offset + sizeof first ≤ memory.size))
  else
    .passed

/-- `MemoryHelper::unpackData<First, Rest...>(memory, offset, first, rest...)`.
`first` and `rest` are the output objects as they are before the call.  Under
`_DEBUG`, `g_logger_assert(offset + sizeof(First) <= memory.size, ...)` comes
first; then `*first` is assigned from `memory.memory + offset`; then the call
recurses at `offset + sizeof(First)` when `sizeof...(Rest) > 0`. -/
def unpackData (build : Build) (memory : SizedMemory) (offset : Nat) (first : Object)
    (rest : List Object) : UnpackOutcome :=
  let check := overrunCheck build memory offset first
  if check = .aborted then
    { logged := check.messages, result := .error .bufferOverrun }
  else
    match loadAt memory.memory offset first with
    | none => { logged := check.messages, result := .error .invalidRead }
    | some v =>
      match rest with
      | [] => { logged := check.messages, result := .ok [v] }
      | r :: rs =>
        let out := unpackData build memory (offset + sizeof first) r rs
        { logged := check.messages + out.logged,
          result :=
            match out.result with
            | .error e => .error e
            | .ok vs => .ok (v :: vs) }

/-! ## Pack / unpack helpers -/

/-- `sizeOfTypes<First, Rest...>()` on the sizes of the types. -/
def sizeOfTypes (first : Nat) (rest : List Nat) : Nat :=
  match rest with
  | [] => first
  | r :: rs => first + sizeOfTypes r rs

/-- `pack(data...)`: allocates `sizeOfTypes<Types...>()` bytes, copies the
arguments from offset 0, and returns the block with its size. -/
def pack (junk : Nat → uint8) (first : Object) (rest : List Object) : Option SizedMemory :=
  let totalSize := sizeOfTypes (sizeof first) (rest.map sizeof)
  let result := g_memory_allocate junk totalSize
  match copyDataToType result 0 first rest with
  | none => none
  | some result1 => some { memory := result1, size := totalSize }

/-- `unpack(memory, data...)`: `unpackData` from offset 0. -/
def unpack (build : Build) (memory : SizedMemory) (first : Object) (rest : List Object) :
    UnpackOutcome :=
  unpackData build memory 0 first rest

/-- The objects left in a list of output slots by typed assignments from the
consecutive chunks of `bytes`, one chunk of `sizeof` bytes for each slot. -/
def receiveAll (slots : List Object) (bytes : List uint8) : List Object :=
  match slots with
  | [] => []
  | s :: ss => assignObject s (bytes.take (sizeof s)) :: receiveAll ss (bytes.drop (sizeof s))

/-! ## `RawMemory` -/

/-- The struct `RawMemory`: the pointer `data` (the bytes behind it), the
capacity `size` and the read/write cursor `offset`.  These are its only
fields. -/
structure RawMemory where
  data : List uint8
  size : Nat
  offset : Nat
deriving DecidableEq, Repr

/-- The reallocator behind a growing or shrinking store: the block gets
`newSize` bytes, keeps its first `min oldSize newSize` bytes, and the bytes
added have unspecified content (`junk i` at index `i`). -/
def g_memory_realloc (junk : Nat → uint8) (block : List uint8) (newSize : Nat) : List uint8 :=
  block.take newSize ++ (List.range (newSize - block.length)).map (fun i => junk (block.length + i))

/-- Modelled from the spec: `RawMemory::writeDangerous` is declared in `core.h`
and defined outside it.  It "grows the backing store if `offset + length >
size`", "copies `length` bytes from `srcBytes` into the store at `offset`,
advances `offset` by `length`".  The spec leaves the growth policy open ("at
least double or exactly fit"): the new capacity is the larger of the bytes
needed and `policy size needed`, for any `policy`.  The caller guarantees that
`srcBytes` has `length` bytes; otherwise the copy is undefined: `none`. -/
def RawMemory.writeDangerous (policy : Nat → Nat → Nat) (junk : Nat → uint8) (m : RawMemory)
    (src : List uint8) (dataSize : Nat) : Option RawMemory :=
  let grown : RawMemory :=
    if m.offset + dataSize > m.size then
      let newSize := max (m.offset + dataSize) (policy m.size (m.offset + dataSize))
      { m with data := g_memory_realloc junk m.data newSize, size := newSize }
    else
      m
  match bytesAt src 0 dataSize with
  | none => none
  | some bytes =>
    match copyInto grown.data grown.offset bytes with
    | none => none
    | some data1 => some { grown with data := data1, offset := grown.offset + dataSize }

/-- What a call of `readDangerous` leaves behind: the Boolean returned, the
buffer, and the destination bytes. -/
structure ReadResult where
  ok : Bool
  memory : RawMemory
  dst : List uint8
deriving DecidableEq, Repr

/-- Modelled from the spec: `RawMemory::readDangerous` is declared in `core.h`
and defined outside it.  "If `offset + length > size`, fails without mutating
`offset` or `dstBytes`, returning a boolean failure indicator; otherwise copies
`length` bytes from the store at `offset` into `dstBytes` and advances `offset`
by `length`."  A copy that leaves the store or the destination is undefined:
`none`. -/
def RawMemory.readDangerous (m : RawMemory) (dst : List uint8) (dataSize : Nat) :
    Option ReadResult :=
  if m.offset + dataSize > m.size then
    some { ok := false, memory := m, dst := dst }
  else
    match bytesAt m.data m.offset dataSize with
    | none => none
    | some bytes =>
      match copyInto dst 0 bytes with
      | none => none
      | some dst1 =>
        some { ok := true, memory := { m with offset := m.offset + dataSize }, dst := dst1 }

/-- `RawMemory::write<T>(const T* data)`: `writeDangerous((uint8*)data, sizeof(T))`. -/
def RawMemory.write (policy : Nat → Nat → Nat) (junk : Nat → uint8) (m : RawMemory)
    (data : Value) : Option RawMemory :=
  m.writeDangerous policy junk data (sizeof data)

/-- `RawMemory::read<T>(T* data)`: `readDangerous((uint8*)data, sizeof(T))`;
`data` is the content of the output object before the call. -/
def RawMemory.read (m : RawMemory) (data : Value) : Option ReadResult :=
  m.readDangerous data (sizeof data)

/-! ## Array helpers -/

/-- Byte order of the platform. -/
inductive Endian where
  | little
  | big
deriving DecidableEq, Repr

/-- The `width` low-order base-256 digits of `n`, least significant first. -/
def digitsLE (width n : Nat) : List uint8 :=
  match width with
  | 0 => []
  | w + 1 => ⟨n % 256, Nat.mod_lt n (by decide)⟩ :: digitsLE w (n / 256)

/-- The number whose base-256 digits, least significant first, are `bytes`. -/
def ofDigitsLE (bytes : List uint8) : Nat :=
  match bytes with
  | [] => 0
  | b :: bs => b.val + 256 * ofDigitsLE bs

/-- Object representation of an unsigned integer of `width` bytes. -/
def encodeUInt (e : Endian) (width n : Nat) : Value :=
  match e with
  | .little => digitsLE width n
  | .big => (digitsLE width n).reverse

/-- The unsigned integer held by an object representation. -/
def decodeUInt (e : Endian) (bytes : Value) : Nat :=
  match e with
  | .little => ofDigitsLE bytes
  | .big => ofDigitsLE bytes.reverse

/-- The objects a call of `unpack` left in the output slots, read as unsigned
integers; `none` when the call stopped without a result. -/
def decodeAll (e : Endian) (r : UnpackOutcome) : Option (List Nat) :=
  match r.result with
  | .error _ => none
  | .ok vs => some (vs.map (fun o => decodeUInt e (bytesOf o)))

theorem length_assignBytes (data : Object) (old : List uint8) (h : old.length = data.length) :
    (assignBytes data old).length = data.length := by
  simp [assignBytes, List.length_zipWith, h]

theorem assignBytes_append (a b : Object) (x y : List uint8) (h : a.length = x.length) :
    assignBytes (a ++ b) (x ++ y) = assignBytes a x ++ assignBytes b y := by
  unfold assignBytes
  exact List.zipWith_append _ a b x y h

theorem length_assignObject (slot : Object) (src : List uint8) (h : src.length = slot.length) :
    (assignObject slot src).length = slot.length := by
  simp [assignObject, List.length_zipWith, h]

theorem storeAt_append (pre old tail : List uint8) (data : Object)
    (h : old.length = data.length) :
    storeAt (pre ++ old ++ tail) pre.length data = some (pre ++ assignBytes data old ++ tail) := by
  unfold storeAt sizeof
  have hlen : pre.length + data.length ≤ (pre ++ old ++ tail).length := by
    simp [List.length_append]; omega
  rw [if_pos hlen]
  have h1 : (pre ++ old ++ tail).take pre.length = pre := by
    rw [List.append_assoc, List.take_left]
  have h2 : (pre ++ old ++ tail).drop (pre.length + data.length) = tail := by
    have : pre.length + data.length = (pre ++ old).length := by simp [h]
    rw [this, List.drop_left]
  have h3 : ((pre ++ old ++ tail).drop pre.length).take data.length = old := by
    rw [List.append_assoc, List.drop_left, ← h, List.take_left]
  rw [h1, h2, h3]

theorem loadAt_append (pre chunk tail : List uint8) (slot : Object)
    (h : chunk.length = slot.length) :
    loadAt (pre ++ chunk ++ tail) pre.length slot = some (assignObject slot chunk) := by
  unfold loadAt sizeof
  have hlen : pre.length + slot.length ≤ (pre ++ chunk ++ tail).length := by
    simp [List.length_append]; omega
  rw [if_pos hlen, List.append_assoc, List.drop_left, ← h, List.take_left]

theorem length_g_memory_allocate (junk : Nat → uint8) (n : Nat) :
    (g_memory_allocate junk n).length = n := by
  simp [g_memory_allocate]

theorem copyDataToType_append (rest : List Object) :
    ∀ (first : Object) (pre old tail : List uint8),
      old.length = (first :: rest).flatten.length →
      copyDataToType (pre ++ old ++ tail) pre.length first rest
        = some (pre ++ assignBytes (first :: rest).flatten old ++ tail) := by
  induction rest with
  | nil =>
    intro first pre old tail h
    have h1 : old.length = first.length := by simpa using h
    unfold copyDataToType copyDataByType
    rw [storeAt_append pre old tail first h1]
    simp
  | cons r rs ih =>
    intro first pre old tail h
    have hl : old.length = first.length + (r :: rs).flatten.length := by
      simpa [List.flatten] using h
    have h1 : (old.take first.length).length = first.length := by
      rw [List.length_take]; omega
    have h2 : (old.drop first.length).length = (r :: rs).flatten.length := by
      rw [List.length_drop]; omega
    have hot : old ++ tail
        = old.take first.length ++ (old.drop first.length ++ tail) := by
      rw [← List.append_assoc, List.take_append_drop]
    have hs : storeAt (pre ++ old ++ tail) pre.length first
        = some (pre ++ assignBytes first (old.take first.length)
            ++ (old.drop first.length ++ tail)) := by
      have := storeAt_append pre (old.take first.length) (old.drop first.length ++ tail) first h1
      rw [← this]
      congr 1
      rw [List.append_assoc pre old tail, List.append_assoc pre (old.take first.length), hot]
    have hla : (assignBytes first (old.take first.length)).length = first.length :=
      length_assignBytes first _ h1
    have hi := ih r (pre ++ assignBytes first (old.take first.length))
      (old.drop first.length) tail h2
    have e1 : pre.length + first.length
        = (pre ++ assignBytes first (old.take first.length)).length := by
      simp [hla]
    have e2 : pre ++ assignBytes first (old.take first.length) ++ (old.drop first.length ++ tail)
        = pre ++ assignBytes first (old.take first.length) ++ old.drop first.length ++ tail := by
      simp [List.append_assoc]
    have hsplit : assignBytes (first :: r :: rs).flatten old
        = assignBytes first (old.take first.length)
          ++ assignBytes (r :: rs).flatten (old.drop first.length) := by
      have hf : (first :: r :: rs).flatten = first ++ (r :: rs).flatten := by
        simp [List.flatten]
      rw [hf]
      conv_lhs => rw [← List.take_append_drop first.length old]
      exact assignBytes_append first _ _ _ h1.symm
    unfold copyDataToType copyDataByType
    rw [hs]
    simp only [sizeof]
    rw [e1, e2, hi, hsplit]
    simp [List.append_assoc]

theorem sizeOfTypes_eq_sum (rest : List Nat) :
    ∀ first : Nat, sizeOfTypes first rest = (first :: rest).sum := by
  induction rest with
  | nil => intro first; simp [sizeOfTypes]
  | cons r rs ih => intro first; rw [sizeOfTypes, ih r]; simp

theorem length_flatten_eq_sum_sizeof {α : Type} (vs : List (List α)) :
    vs.flatten.length = (vs.map sizeof).sum := by
  induction vs with
  | nil => rfl
  | cons v vs ih => simp [List.flatten, ih, sizeof]

theorem pack_eq (junk : Nat → uint8) (first : Object) (rest : List Object) :
    pack junk first rest
      = some { memory := assignBytes (first :: rest).flatten
                 (g_memory_allocate junk ((first :: rest).map sizeof).sum),
               size := ((first :: rest).map sizeof).sum } := by
  have hsz : sizeOfTypes (sizeof first) (rest.map sizeof) = ((first :: rest).map sizeof).sum := by
    rw [sizeOfTypes_eq_sum]; rfl
  have halloc : (g_memory_allocate junk ((first :: rest).map sizeof).sum).length
      = (first :: rest).flatten.length := by
    rw [length_g_memory_allocate, length_flatten_eq_sum_sizeof]
  have hc := copyDataToType_append rest first []
    (g_memory_allocate junk ((first :: rest).map sizeof).sum) [] halloc
  simp only [List.nil_append, List.append_nil, List.length_nil] at hc
  unfold pack
  simp only [hsz, hc]

theorem split_at_member {α : Type} (vs : List α) :
    ∀ (i : Nat) (v : α), vs[i]? = some v → vs = vs.take i ++ v :: vs.drop (i + 1) := by
  induction vs with
  | nil => intro i v h; simp at h
  | cons w ws ih =>
    intro i v h
    cases i with
    | zero => simp at h; simp [h]
    | succ j =>
      have hj : ws[j]? = some v := by simpa using h
      have := ih j v hj
      simp only [List.take_succ_cons, List.drop_succ_cons, List.cons_append]
      rw [← this]

/-! ## `unpackData` -/

theorem overrunCheck_fits (build : Build) (m : SizedMemory) (offset : Nat) (first : Object)
    (h : build.debug = true → offset + sizeof first ≤ m.size) :
    overrunCheck build m offset first = .passed := by
  unfold overrunCheck g_logger_assert
  cases hd : build.debug with
  | false => simp
  | true => simp [h hd]

theorem overrunCheck_aborted (build : Build) (m : SizedMemory) (offset : Nat) (first : Object)
    (hd : build.debug = true) (hn : build.ndebug = false) (h : m.size < offset + sizeof first) :
    overrunCheck build m offset first = .aborted := by
  unfold overrunCheck g_logger_assert
  have : ¬ (offset + sizeof first ≤ m.size) := by omega
  simp [hd, hn, this]

theorem overrunCheck_logged (build : Build) (m : SizedMemory) (offset : Nat) (first : Object)
    (hd : build.debug = true) (hn : build.ndebug = true) (h : m.size < offset + sizeof first) :
    overrunCheck build m offset first = .logged := by
  unfold overrunCheck g_logger_assert
  have : ¬ (offset + sizeof first ≤ m.size) := by omega
  simp [hd, hn, this]

theorem overrunCheck_not_aborted (build : Build) (m : SizedMemory) (offset : Nat)
    (first : Object) (h : build.debug = false ∨ build.ndebug = true) :
    overrunCheck build m offset first ≠ .aborted := by
  unfold overrunCheck g_logger_assert
  rcases h with h | h
  · simp [h]
  · cases build.debug <;> simp [h]
    split <;> simp

theorem unpackData_nil (build : Build) (m : SizedMemory) (offset : Nat) (first : Object) :
    unpackData build m offset first []
      = if overrunCheck build m offset first = .aborted then
          { logged := (overrunCheck build m offset first).messages,
            result := .error .bufferOverrun }
        else match loadAt m.memory offset first with
          | none => { logged := (overrunCheck build m offset first).messages,
                      result := .error .invalidRead }
          | some v => { logged := (overrunCheck build m offset first).messages,
                        result := .ok [v] } := by
  rw [unpackData]

theorem unpackData_cons (build : Build) (m : SizedMemory) (offset : Nat) (first r : Object)
    (rs : List Object) :
    unpackData build m offset first (r :: rs)
      = if overrunCheck build m offset first = .aborted then
          { logged := (overrunCheck build m offset first).messages,
            result := .error .bufferOverrun }
        else match loadAt m.memory offset first with
          | none => { logged := (overrunCheck build m offset first).messages,
                      result := .error .invalidRead }
          | some v =>
            { logged := (overrunCheck build m offset first).messages
                + (unpackData build m (offset + sizeof first) r rs).logged,
              result :=
                match (unpackData build m (offset + sizeof first) r rs).result with
                | .error e => .error e
                | .ok vs => .ok (v :: vs) } := by
  rw [unpackData]

theorem unpackData_append (build : Build) (m : SizedMemory) (rest : List Object) :
    ∀ (first : Object) (pre mid tail : List uint8),
      m.memory = pre ++ mid ++ tail →
      mid.length = (first :: rest).flatten.length →
      (build.debug = true → pre.length + mid.length ≤ m.size) →
      unpackData build m pre.length first rest
        = { logged := 0, result := .ok (receiveAll (first :: rest) mid) } := by
  induction rest with
  | nil =>
    intro first pre mid tail hm hl hd
    have hl1 : mid.length = first.length := by simpa using hl
    have hload : loadAt m.memory pre.length first = some (assignObject first mid) := by
      rw [hm]; exact loadAt_append pre mid tail first hl1
    have hchk : overrunCheck build m pre.length first = .passed :=
      overrunCheck_fits build m pre.length first (by
        intro h; have := hd h; simp only [sizeof]; omega)
    rw [unpackData_nil, hchk, hload]
    simp [AssertOutcome.messages, receiveAll, sizeof, ← hl1]
  | cons r rs ih =>
    intro first pre mid tail hm hl hd
    have hl1 : mid.length = first.length + (r :: rs).flatten.length := by
      simpa [List.flatten] using hl
    have h1 : (mid.take first.length).length = first.length := by
      rw [List.length_take]; omega
    have h2 : (mid.drop first.length).length = (r :: rs).flatten.length := by
      rw [List.length_drop]; omega
    have hot : mid ++ tail
        = mid.take first.length ++ (mid.drop first.length ++ tail) := by
      rw [← List.append_assoc, List.take_append_drop]
    have hm1 : m.memory = pre ++ mid.take first.length ++ (mid.drop first.length ++ tail) := by
      rw [hm, List.append_assoc pre mid tail, hot, ← List.append_assoc pre]
    have hload : loadAt m.memory pre.length first
        = some (assignObject first (mid.take first.length)) := by
      rw [hm1]; exact loadAt_append pre _ _ first h1
    have hchk : overrunCheck build m pre.length first = .passed :=
      overrunCheck_fits build m pre.length first (by
        intro h; have := hd h; simp only [sizeof]; omega)
    have hm2 : m.memory = (pre ++ mid.take first.length) ++ mid.drop first.length ++ tail := by
      rw [hm1]; simp only [List.append_assoc]
    have hi := ih r (pre ++ mid.take first.length) (mid.drop first.length) tail hm2 h2 (by
      intro h
      have := hd h
      simp only [List.length_append, h1, List.length_drop]
      omega)
    have e1 : (pre ++ mid.take first.length).length = pre.length + sizeof first := by
      simp [sizeof, h1]
    rw [e1] at hi
    rw [unpackData_cons, hchk, hload, hi]
    simp [AssertOutcome.messages, receiveAll, sizeof]

/-! ## What a round trip leaves in a slot -/

theorem assignBytes_no_padding (d : Object) :
    ∀ old : List uint8, (∀ c ∈ d, c.padding = false) → old.length = d.length →
      assignBytes d old = bytesOf d := by
  induction d with
  | nil => intro old _ h; simp [assignBytes, bytesOf]
  | cons c cs ih =>
    intro old hall h
    cases old with
    | nil => simp at h
    | cons o os =>
      have hc := hall c (List.mem_cons_self _ _)
      have ht := ih os (fun x hx => hall x (List.mem_cons_of_mem _ hx)) (by simpa using h)
      simp only [assignBytes, bytesOf] at ht ⊢
      simp [hc, ht]

theorem sum_gt_of_member (ts : List Nat) (k t size : Nat) (h : ts[k]? = some t)
    (hlt : size - (ts.take k).sum < t) : size < ts.sum := by
  have hs := split_at_member ts k t h
  have : ts.sum = (ts.take k).sum + (t + (ts.drop (k + 1)).sum) := by
    conv_lhs => rw [hs]
    simp
  omega

theorem loadAt_fits (mem : List uint8) (offset : Nat) (slot : Object)
    (h : offset + sizeof slot ≤ mem.length) :
    loadAt mem offset slot
      = some (assignObject slot ((mem.drop offset).take (sizeof slot))) := by
  unfold loadAt
  rw [if_pos h]

theorem unpackData_debug_overrun (build : Build) (m : SizedMemory)
    (hd : build.debug = true) (hn : build.ndebug = false) (hw : m.size ≤ m.memory.length)
    (rest : List Object) :
    ∀ (offset : Nat) (first : Object), m.size < offset + ((first :: rest).map sizeof).sum →
      unpackData build m offset first rest = { logged := 1, result := .error .bufferOverrun } := by
  induction rest with
  | nil =>
    intro offset first h
    have hc := overrunCheck_aborted build m offset first hd hn (by simp at h; omega)
    rw [unpackData_nil, hc]
    simp [AssertOutcome.messages]
  | cons r rs ih =>
    intro offset first h
    rw [unpackData_cons]
    by_cases hf : offset + sizeof first ≤ m.size
    · have hc := overrunCheck_fits build m offset first (fun _ => hf)
      have hload := loadAt_fits m.memory offset first (by omega)
      have hi := ih (offset + sizeof first) r (by simp at h ⊢; omega)
      rw [hc, hload, hi]
      simp [AssertOutcome.messages]
    · have hc := overrunCheck_aborted build m offset first hd hn (by omega)
      rw [hc]
      simp [AssertOutcome.messages]

theorem unpackData_fits (build : Build) (m : SizedMemory) (rest : List Object) :
    ∀ (offset : Nat) (first : Object), offset + ((first :: rest).map sizeof).sum ≤ m.size →
      (unpackData build m offset first rest).logged = 0 ∧
      (unpackData build m offset first rest).result ≠ .error .bufferOverrun ∧
      (m.size ≤ m.memory.length →
        ∃ outs, (unpackData build m offset first rest).result = .ok outs) := by
  induction rest with
  | nil =>
    intro offset first h
    have hf : offset + sizeof first ≤ m.size := by simp at h; omega
    have hc := overrunCheck_fits build m offset first (fun _ => hf)
    rw [unpackData_nil, hc]
    refine ⟨?_, ?_, ?_⟩
    · cases hl : loadAt m.memory offset first <;> simp [AssertOutcome.messages]
    · cases hl : loadAt m.memory offset first <;> simp
    · intro hw
      rw [loadAt_fits m.memory offset first (by omega)]
      simp
  | cons r rs ih =>
    intro offset first h
    have hf : offset + sizeof first ≤ m.size := by simp at h; omega
    have hc := overrunCheck_fits build m offset first (fun _ => hf)
    obtain ⟨i1, i2, i3⟩ := ih (offset + sizeof first) r (by simp at h ⊢; omega)
    rw [unpackData_cons, hc]
    refine ⟨?_, ?_, ?_⟩
    · cases hl : loadAt m.memory offset first <;> simp [AssertOutcome.messages, i1]
    · cases hl : loadAt m.memory offset first with
      | none => simp
      | some v =>
        cases hr : (unpackData build m (offset + sizeof first) r rs).result with
        | error e =>
          have he : e ≠ .bufferOverrun := by
            intro heq; apply i2; rw [hr, heq]
          simp [he]
        | ok vs => simp
    · intro hw
      obtain ⟨outs, ho⟩ := i3 hw
      rw [loadAt_fits m.memory offset first (by omega)]
      simp [ho]

theorem unpackData_no_abort (build : Build) (m : SizedMemory)
    (hb : build.debug = false ∨ build.ndebug = true) (rest : List Object) :
    ∀ (offset : Nat) (first : Object),
      (unpackData build m offset first rest).result
        = (unpackData { debug := false, ndebug := build.ndebug } m offset first rest).result ∧
      (unpackData build m offset first rest).result ≠ .error .bufferOverrun := by
  have hrel : ∀ (offset : Nat) (first : Object),
      overrunCheck { debug := false, ndebug := build.ndebug } m offset first ≠ .aborted :=
    fun offset first => overrunCheck_not_aborted _ m offset first (Or.inl rfl)
  induction rest with
  | nil =>
    intro offset first
    have hc := overrunCheck_not_aborted build m offset first hb
    rw [unpackData_nil, unpackData_nil, if_neg hc, if_neg (hrel offset first)]
    cases hl : loadAt m.memory offset first <;> simp
  | cons r rs ih =>
    intro offset first
    have hc := overrunCheck_not_aborted build m offset first hb
    obtain ⟨i1, i2⟩ := ih (offset + sizeof first) r
    rw [unpackData_cons, unpackData_cons, if_neg hc, if_neg (hrel offset first)]
    cases hl : loadAt m.memory offset first with
    | none => simp
    | some v =>
      simp only
      rw [← i1]
      refine ⟨rfl, ?_⟩
      cases hr : (unpackData build m (offset + sizeof first) r rs).result with
      | error e =>
        have he : e ≠ .bufferOverrun := by
          intro heq; apply i2; rw [hr, heq]
        simp [he]
      | ok vs => simp

theorem unpackData_release_silent (build : Build) (m : SizedMemory) (hd : build.debug = false)
    (rest : List Object) :
    ∀ (offset : Nat) (first : Object), (unpackData build m offset first rest).logged = 0 := by
  have hc : ∀ (offset : Nat) (first : Object), overrunCheck build m offset first = .passed :=
    fun offset first => overrunCheck_fits build m offset first (by rw [hd]; intro h; cases h)
  induction rest with
  | nil =>
    intro offset first
    rw [unpackData_nil, hc]
    cases hl : loadAt m.memory offset first <;> simp [AssertOutcome.messages]
  | cons r rs ih =>
    intro offset first
    rw [unpackData_cons, hc]
    cases hl : loadAt m.memory offset first <;>
      simp [AssertOutcome.messages, ih (offset + sizeof first) r]

theorem unpackData_ndebug_logged (build : Build) (m : SizedMemory)
    (hd : build.debug = true) (hn : build.ndebug = true) (hw : m.size ≤ m.memory.length)
    (rest : List Object) :
    ∀ (offset : Nat) (first : Object), m.size < offset + ((first :: rest).map sizeof).sum →
      0 < (unpackData build m offset first rest).logged := by
  induction rest with
  | nil =>
    intro offset first h
    have hc := overrunCheck_logged build m offset first hd hn (by simp at h; omega)
    rw [unpackData_nil, hc]
    cases hl : loadAt m.memory offset first <;> simp [AssertOutcome.messages]
  | cons r rs ih =>
    intro offset first h
    rw [unpackData_cons]
    by_cases hf : offset + sizeof first ≤ m.size
    · have hc := overrunCheck_fits build m offset first (fun _ => hf)
      have hload := loadAt_fits m.memory offset first (by omega)
      have hi := ih (offset + sizeof first) r (by simp at h ⊢; omega)
      rw [hc, hload]
      simp [AssertOutcome.messages]
      omega
    · have hc := overrunCheck_logged build m offset first hd hn (by omega)
      rw [hc]
      cases hl : loadAt m.memory offset first <;> simp [AssertOutcome.messages]

theorem bytesOf_flatten (vals : List Object) :
    bytesOf vals.flatten = (vals.map bytesOf).flatten := by
  induction vals with
  | nil => rfl
  | cons v vs ih =>
    simp only [List.flatten_cons, List.map_cons]
    rw [← ih]
    simp [bytesOf]

theorem length_digitsLE (width : Nat) : ∀ n : Nat, (digitsLE width n).length = width := by
  induction width with
  | zero => intro n; rfl
  | succ w ih => intro n; simp [digitsLE, ih]

theorem length_encodeUInt (e : Endian) (width n : Nat) : (encodeUInt e width n).length = width := by
  cases e <;> simp [encodeUInt, length_digitsLE]

theorem assignObject_plain (old : Value) :
    ∀ src : List uint8, src.length = old.length → assignObject (plain old) src = plain src := by
  induction old with
  | nil => intro src h; simp at h; simp [h, assignObject, plain]
  | cons o os ih =>
    intro src h
    cases src with
    | nil => simp at h
    | cons b bs =>
      have ht := ih bs (by simpa using h)
      simp only [assignObject, plain] at ht ⊢
      simp [ht]

theorem plain_no_padding (bytes : Value) : ∀ c ∈ plain bytes, c.padding = false := by
  intro c hc
  simp only [plain, List.mem_map] at hc
  obtain ⟨b, _, hb⟩ := hc
  rw [← hb]

/-! ## Claims on `pack` and `unpack` -/

/-- C3, size law.  `sizeOfTypes` is the sum of the sizes of the types, `pack`
asks the allocator for that many bytes, and the blob it returns has that
`size` and holds that many bytes. -/
theorem pack_size (junk : Nat → uint8) (first : Object) (rest : List Object) :
    sizeOfTypes (sizeof first) (rest.map sizeof) = ((first :: rest).map sizeof).sum ∧
    (g_memory_allocate junk (sizeOfTypes (sizeof first) (rest.map sizeof))).length
      = ((first :: rest).map sizeof).sum ∧
    ∃ blob, pack junk first rest = some blob ∧
      blob.size = ((first :: rest).map sizeof).sum ∧
      blob.memory.length = ((first :: rest).map sizeof).sum := by
  have hsz : sizeOfTypes (sizeof first) (rest.map sizeof) = ((first :: rest).map sizeof).sum := by
    rw [sizeOfTypes_eq_sum]; rfl
  refine ⟨hsz, ?_, _, pack_eq junk first rest, rfl, ?_⟩
  · rw [length_g_memory_allocate, hsz]
  · show (assignBytes _ _).length = _
    rw [length_assignBytes _ _ (by
      rw [length_g_memory_allocate, length_flatten_eq_sum_sizeof]),
      length_flatten_eq_sum_sizeof]

/-- C5, type-order mismatch scenario.  On a little-endian and on a big-endian
platform, in every build, and whatever the output objects hold before the
call: `pack(uint32(7), uint8(200))` returns a blob of size 5; `unpack` into
`(uint32, uint8)` yields `(7, 200)`; `unpack` into `(uint8, uint32)` does not
fail and yields a pair other than `(7, 200)`. -/
theorem pack_uint32_uint8_scenario (e : Endian) (junk : Nat → uint8) (build : Build)
    (s t : Nat) :
    ∃ blob, pack junk (plain (encodeUInt e 4 7)) [plain (encodeUInt e 1 200)] = some blob ∧
      blob.size = 5 ∧
      decodeAll e (unpack build blob (plain (encodeUInt e 4 s)) [plain (encodeUInt e 1 t)])
        = some [7, 200] ∧
      ∃ a b,
        decodeAll e (unpack build blob (plain (encodeUInt e 1 t)) [plain (encodeUInt e 4 s)])
          = some [a, b] ∧ (a, b) ≠ (7, 200) := by
  have hfit : ∀ (blob : SizedMemory), blob.memory.length = 5 → blob.size = 5 →
      unpack build blob (plain (encodeUInt e 4 s)) [plain (encodeUInt e 1 t)]
        = { logged := 0,
            result := .ok [plain (blob.memory.take 4), plain (blob.memory.drop 4)] } ∧
      unpack build blob (plain (encodeUInt e 1 t)) [plain (encodeUInt e 4 s)]
        = { logged := 0,
            result := .ok [plain (blob.memory.take 1), plain (blob.memory.drop 1)] } := by
    intro blob hl hsz
    have h41 := unpackData_append build blob [plain (encodeUInt e 1 t)]
      (plain (encodeUInt e 4 s)) [] blob.memory [] (by simp)
      (by simp [plain, length_encodeUInt, hl]) (by intro _; simp [hl, hsz])
    have h14 := unpackData_append build blob [plain (encodeUInt e 4 s)]
      (plain (encodeUInt e 1 t)) [] blob.memory [] (by simp)
      (by simp [plain, length_encodeUInt, hl]) (by intro _; simp [hl, hsz])
    have l4 : sizeof (plain (encodeUInt e 4 s)) = 4 := by
      simp [sizeof, plain, length_encodeUInt]
    have l1 : sizeof (plain (encodeUInt e 1 t)) = 1 := by
      simp [sizeof, plain, length_encodeUInt]
    simp only [List.length_nil, receiveAll, l4, l1] at h41 h14
    rw [assignObject_plain _ _ (by simp [length_encodeUInt, hl]),
      assignObject_plain _ _ (by simp [length_encodeUInt, hl])] at h41
    rw [assignObject_plain _ _ (by simp [length_encodeUInt, hl]),
      assignObject_plain _ _ (by simp [length_encodeUInt, hl])] at h14
    have d1 : (blob.memory.drop 4).take 1 = blob.memory.drop 4 := by
      apply List.take_of_length_le; simp [hl]
    have d4 : (blob.memory.drop 1).take 4 = blob.memory.drop 1 := by
      apply List.take_of_length_le; simp [hl]
    rw [d1] at h41
    rw [d4] at h14
    exact ⟨h41, h14⟩
  have hmem : ∀ (first : Object) (rest : List Object),
      (∀ v ∈ first :: rest, ∀ c ∈ v, c.padding = false) →
      pack junk first rest
        = some { memory := ((first :: rest).map bytesOf).flatten,
                 size := ((first :: rest).map sizeof).sum } := by
    intro first rest hall
    rw [pack_eq, assignBytes_no_padding _ _ (by
      intro c hc
      obtain ⟨v, hv, hcv⟩ := List.mem_flatten.mp hc
      exact hall v hv c hcv) (by
      rw [length_g_memory_allocate, length_flatten_eq_sum_sizeof]), bytesOf_flatten]
  have hp := hmem (plain (encodeUInt e 4 7)) [plain (encodeUInt e 1 200)] (by
    intro v hv c hc
    simp only [List.mem_cons, List.mem_singleton, List.not_mem_nil, or_false] at hv
    rcases hv with hv | hv <;> (rw [hv] at hc; exact plain_no_padding _ c hc))
  refine ⟨_, hp, ?_⟩
  cases e
  · obtain ⟨h41, h14⟩ := hfit
      { memory := ([plain (encodeUInt .little 4 7), plain (encodeUInt .little 1 200)].map
          bytesOf).flatten,
        size := ([plain (encodeUInt .little 4 7), plain (encodeUInt .little 1 200)].map
          sizeof).sum } (by decide) (by decide)
    rw [h41, h14]
    exact ⟨by decide, by decide, 7, 3355443200, by decide, by decide⟩
  · obtain ⟨h41, h14⟩ := hfit
      { memory := ([plain (encodeUInt .big 4 7), plain (encodeUInt .big 1 200)].map
          bytesOf).flatten,
        size := ([plain (encodeUInt .big 4 7), plain (encodeUInt .big 1 200)].map
          sizeof).sum } (by decide) (by decide)
    rw [h41, h14]
    exact ⟨by decide, by decide, 0, 1992, by decide, by decide⟩

/-- C4 as stated fails in a build without `_DEBUG`: the assertion is compiled
out, so for the blob of size 2 wrapped around four bytes and the type list
`(uint32)`, where the remaining length 2 is less than the size 4 of the member,
`unpack` reads the member and reports no overrun. -/
theorem unpack_release_reads_without_check :
    (⟨[1, 2, 3, 4], 2⟩ : SizedMemory).size - 0 < sizeof (plain [0, 0, 0, 0]) ∧
    unpack { debug := false, ndebug := true } ⟨[1, 2, 3, 4], 2⟩ (plain [0, 0, 0, 0]) []
      = { logged := 0, result := .ok [plain [1, 2, 3, 4]] } ∧
    unpack { debug := false, ndebug := false } ⟨[1, 2, 3, 4], 2⟩ (plain [0, 0, 0, 0]) []
      = { logged := 0, result := .ok [plain [1, 2, 3, 4]] } ∧
    unpack { debug := true, ndebug := false } ⟨[1, 2, 3, 4], 2⟩ (plain [0, 0, 0, 0]) []
      = { logged := 1, result := .error .bufferOverrun } := by
  decide

/-- C4 amended, unpack overrun detection.  With `_DEBUG` defined, before each
member `unpack` evaluates `g_logger_assert(offset + sizeof(member) <= size)`.
For every blob whose `size` bytes are readable and every list of output
objects in which, for some member, the remaining length (`size` minus the
running offset) is less than the size of the member: with `_DEBUG` and without
`NDEBUG` the call stops with the buffer-overrun assertion, one message
written; with `_DEBUG` and `NDEBUG` a message is written, the call goes on and
returns what a build without `_DEBUG` returns.  Without `_DEBUG` no check is
made: no message, no overrun.  In every build, when `size` is at least the sum
of the requested sizes no message is written and no overrun is reported (and
the call returns objects when the `size` bytes are readable). -/
theorem unpack_overrun_detection (build : Build) (b : SizedMemory) (first : Object)
    (rest : List Object) :
    (build.debug = true → build.ndebug = false → b.size ≤ b.memory.length →
      (∃ k t, ((first :: rest).map sizeof)[k]? = some t ∧
        b.size - (((first :: rest).map sizeof).take k).sum < t) →
      unpack build b first rest = { logged := 1, result := .error .bufferOverrun }) ∧
    (build.debug = true → build.ndebug = true →
      (unpack build b first rest).result
        = (unpack { debug := false, ndebug := true } b first rest).result ∧
      (unpack build b first rest).result ≠ .error .bufferOverrun ∧
      (b.size ≤ b.memory.length →
        (∃ k t, ((first :: rest).map sizeof)[k]? = some t ∧
          b.size - (((first :: rest).map sizeof).take k).sum < t) →
        0 < (unpack build b first rest).logged)) ∧
    (build.debug = false →
      (unpack build b first rest).logged = 0 ∧
      (unpack build b first rest).result ≠ .error .bufferOverrun) ∧
    (((first :: rest).map sizeof).sum ≤ b.size →
      (unpack build b first rest).logged = 0 ∧
      (unpack build b first rest).result ≠ .error .bufferOverrun ∧
      (b.size ≤ b.memory.length → ∃ outs, (unpack build b first rest).result = .ok outs)) := by
  refine ⟨?_, ?_, ?_, ?_⟩
  · intro hd hn hw ⟨k, t, hk, hlt⟩
    have hsum := sum_gt_of_member _ k t b.size hk hlt
    exact unpackData_debug_overrun build b hd hn hw rest 0 first (by omega)
  · intro hd hn
    have h := unpackData_no_abort build b (Or.inr hn) rest 0 first
    rw [hn] at h
    refine ⟨h.1, h.2, ?_⟩
    intro hw ⟨k, t, hk, hlt⟩
    have hsum := sum_gt_of_member _ k t b.size hk hlt
    exact unpackData_ndebug_logged build b hd hn hw rest 0 first (by omega)
  · intro hd
    exact ⟨unpackData_release_silent build b hd rest 0 first,
      (unpackData_no_abort build b (Or.inl hd) rest 0 first).2⟩
  · intro hfit
    exact unpackData_fits build b rest 0 first (by omega)

/-- The amended C4 at concrete blobs: the second member of `(uint8, uint32)`
does not fit a blob of size 4, which stops a build with `_DEBUG` alone and is
only logged with `NDEBUG`; `(uint32)` fits it. -/
theorem unpack_overrun_detection_witness :
    unpack { debug := true, ndebug := false } ⟨[1, 2, 3, 4], 4⟩ (plain [0]) [plain [0, 0, 0, 0]]
      = { logged := 1, result := .error .bufferOverrun } ∧
    0 < (unpack { debug := true, ndebug := true } ⟨[1, 2, 3, 4], 4⟩ (plain [0])
      [plain [0, 0, 0, 0]]).logged ∧
    (unpack { debug := true, ndebug := false } ⟨[1, 2, 3, 4], 4⟩ (plain [0, 0, 0, 0])
      []).logged = 0 :=
  ⟨(unpack_overrun_detection { debug := true, ndebug := false } ⟨[1, 2, 3, 4], 4⟩ (plain [0])
      [plain [0, 0, 0, 0]]).1 rfl rfl (by decide) ⟨1, 4, by decide, by decide⟩,
    ((unpack_overrun_detection { debug := true, ndebug := true } ⟨[1, 2, 3, 4], 4⟩ (plain [0])
      [plain [0, 0, 0, 0]]).2.1 rfl rfl).2.2 (by decide) ⟨1, 4, by decide, by decide⟩,
    ((unpack_overrun_detection { debug := true, ndebug := false } ⟨[1, 2, 3, 4], 4⟩
      (plain [0, 0, 0, 0]) []).2.2.2 (by decide)).1⟩

/-! ## `RawMemory`: basic facts -/

theorem length_g_memory_realloc (junk : Nat → uint8) (block : List uint8) (n : Nat) :
    (g_memory_realloc junk block n).length = n := by
  simp [g_memory_realloc, List.length_take]
  omega

theorem bytesAt_zero (src : List uint8) (k : Nat) (h : k ≤ src.length) :
    bytesAt src 0 k = some (src.take k) := by
  unfold bytesAt
  rw [if_pos (by omega)]
  simp

theorem copyInto_fits (dst : List uint8) (offset : Nat) (src : List uint8)
    (h : offset + src.length ≤ dst.length) :
    copyInto dst offset src
      = some (dst.take offset ++ src ++ dst.drop (offset + src.length)) := by
  unfold copyInto
  rw [if_pos h]

theorem bytesAt_written (g src : List uint8) (offset : Nat) (h : offset ≤ g.length) (tail : List uint8) :
    bytesAt (g.take offset ++ src ++ tail) offset src.length = some src := by
  have hl : (g.take offset).length = offset := by rw [List.length_take]; omega
  unfold bytesAt
  rw [if_pos (by simp [hl])]
  have : (g.take offset ++ src ++ tail).drop offset = src ++ tail := by
    rw [List.append_assoc, List.drop_left' hl]
  rw [this, List.take_left]

/-- The store after the growth step of `writeDangerous`, and its capacity. -/
theorem writeDangerous_eq (policy : Nat → Nat → Nat) (junk : Nat → uint8) (m : RawMemory)
    (src : List uint8) (k : Nat) (hwf : m.data.length = m.size) (hsrc : k ≤ src.length) :
    ∃ (g : List uint8) (gsize : Nat),
      g.length = gsize ∧ m.offset + k ≤ gsize ∧ m.size ≤ gsize ∧
      (m.offset + k ≤ m.size → gsize = m.size ∧ g = m.data) ∧
      m.writeDangerous policy junk src k
        = some { data := g.take m.offset ++ src.take k ++ g.drop (m.offset + k),
                 size := gsize, offset := m.offset + k } := by
  have hk : (src.take k).length = k := by rw [List.length_take]; omega
  by_cases hg : m.offset + k > m.size
  · refine ⟨g_memory_realloc junk m.data (max (m.offset + k) (policy m.size (m.offset + k))),
      max (m.offset + k) (policy m.size (m.offset + k)),
      length_g_memory_realloc _ _ _, le_max_left _ _, ?_, ?_, ?_⟩
    · have := le_max_left (m.offset + k) (policy m.size (m.offset + k)); omega
    · intro h; omega
    · unfold RawMemory.writeDangerous
      simp only [hg, if_true, bytesAt_zero src k hsrc]
      rw [copyInto_fits _ _ _ (by
        rw [hk, length_g_memory_realloc]; exact le_max_left _ _)]
      simp only [hk]
  · refine ⟨m.data, m.size, hwf, by omega, le_refl _, fun _ => ⟨rfl, rfl⟩, ?_⟩
    unfold RawMemory.writeDangerous
    simp only [hg, if_false, bytesAt_zero src k hsrc]
    rw [copyInto_fits _ _ _ (by rw [hk, hwf]; omega)]
    simp only [hk]

theorem readDangerous_fail (m : RawMemory) (dst : List uint8) (len : Nat)
    (h : m.size < m.offset + len) :
    m.readDangerous dst len = some { ok := false, memory := m, dst := dst } := by
  unfold RawMemory.readDangerous
  rw [if_pos h]

theorem readDangerous_success (m : RawMemory) (dst : List uint8) (len : Nat)
    (hwf : m.data.length = m.size) (h : m.offset + len ≤ m.size) (hdst : len ≤ dst.length) :
    m.readDangerous dst len
      = some { ok := true, memory := { m with offset := m.offset + len },
               dst := (m.data.drop m.offset).take len ++ dst.drop len } := by
  have hl : bytesAt m.data m.offset len = some ((m.data.drop m.offset).take len) := by
    unfold bytesAt
    rw [if_pos (by omega)]
  have hlen : ((m.data.drop m.offset).take len).length = len := by
    rw [List.length_take, List.length_drop]; omega
  unfold RawMemory.readDangerous
  rw [if_neg (by omega), hl]
  simp only
  rw [copyInto_fits _ _ _ (by omega)]
  simp [hlen]

theorem readDangerous_offset (m : RawMemory) (dst : List uint8) (len : Nat) (r : ReadResult)
    (h : m.readDangerous dst len = some r) (hok : r.ok = true) :
    r.memory.offset = m.offset + len := by
  unfold RawMemory.readDangerous at h
  by_cases hc : m.offset + len > m.size
  · rw [if_pos hc] at h
    cases h
    simp at hok
  · rw [if_neg hc] at h
    cases hl : bytesAt m.data m.offset len with
    | none => rw [hl] at h; simp at h
    | some bytes =>
      rw [hl] at h
      simp only at h
      cases hs : copyInto dst 0 bytes with
      | none => rw [hs] at h; simp at h
      | some dst1 =>
        rw [hs] at h
        simp only [Option.some.injEq] at h
        rw [← h]

/-! ## Claims on `RawMemory` -/

/-- C6, overrun rejection.  For every buffer state, destination and length
with `len > size - offset` (the difference taken in the integers),
`readDangerous(dst, len)` returns `false` and leaves the buffer (its offset
included) and the destination bytes as they were; so does `read<T>` for every
output object with `sizeof(T) = len`. -/
theorem readDangerous_overrun_rejected (m : RawMemory) (dst : List uint8) (len : Nat)
    (h : (len : Int) > (m.size : Int) - (m.offset : Int)) :
    m.readDangerous dst len = some { ok := false, memory := m, dst := dst } ∧
    ∀ slot : Value, sizeof slot = len →
      m.read slot = some { ok := false, memory := m, dst := slot } := by
  have hlt : m.size < m.offset + len := by omega
  refine ⟨readDangerous_fail m dst len hlt, ?_⟩
  intro slot hs
  unfold RawMemory.read
  rw [hs]
  exact readDangerous_fail m slot len hlt

/-- C6 at a concrete state: three of four bytes consumed, two requested. -/
theorem readDangerous_overrun_rejected_witness :
    RawMemory.readDangerous ⟨[1, 2, 3, 4], 4, 3⟩ [9, 9] 2
      = some { ok := false, memory := ⟨[1, 2, 3, 4], 4, 3⟩, dst := [9, 9] } :=
  (readDangerous_overrun_rejected ⟨[1, 2, 3, 4], 4, 3⟩ [9, 9] 2 (by decide)).1

/-- C7, cursor monotonicity.  For a buffer whose store has `size` bytes, a
source and a destination of at least `k` bytes, and for every growth policy:
`writeDangerous` of `k` bytes returns a buffer with `offset` advanced by
exactly `k` and the `k` bytes in the store at the old offset; the capacity was
kept when `offset + k <= size` and grown to at least `offset + k` otherwise, so
`offset <= size` holds afterwards.  When `offset + k <= size`, `readDangerous`
of `k` bytes returns `true`, delivers the `k` bytes of the store at the old
offset, and advances `offset` by exactly `k`; whenever it returns `true` the
offset has advanced by `k`.  `write<T>` advances `offset` by `sizeof(T)`, and
`read<T>` returns `true` and advances `offset` by `sizeof(T)` when `offset +
sizeof(T) <= size`. -/
theorem cursor_monotonicity (policy : Nat → Nat → Nat) (junk : Nat → uint8) (m : RawMemory)
    (src dst : List uint8) (k : Nat) (hwf : m.data.length = m.size) (hsrc : k ≤ src.length)
    (hdst : k ≤ dst.length) :
    (∃ m1, m.writeDangerous policy junk src k = some m1 ∧
      m1.offset = m.offset + k ∧ m1.offset ≤ m1.size ∧ m1.data.length = m1.size ∧
      m.size ≤ m1.size ∧ (m.offset + k ≤ m.size → m1.size = m.size) ∧
      bytesAt m1.data m.offset k = some (src.take k)) ∧
    (∀ r, m.readDangerous dst k = some r → r.ok = true → r.memory.offset = m.offset + k) ∧
    (m.offset + k ≤ m.size →
      ∃ r bytes, m.readDangerous dst k = some r ∧ r.ok = true ∧
        r.memory.offset = m.offset + k ∧ r.memory.data = m.data ∧ r.memory.size = m.size ∧
        bytesAt m.data m.offset k = some bytes ∧ r.dst = bytes ++ dst.drop k) ∧
    (∀ v : Value, ∃ m1, m.write policy junk v = some m1 ∧ m1.offset = m.offset + sizeof v ∧
      bytesAt m1.data m.offset (sizeof v) = some v) ∧
    (∀ slot : Value, ∀ r, m.read slot = some r → r.ok = true →
      r.memory.offset = m.offset + sizeof slot) ∧
    (∀ slot : Value, m.offset + sizeof slot ≤ m.size →
      ∃ r, m.read slot = some r ∧ r.ok = true ∧
        r.memory.offset = m.offset + sizeof slot ∧
        r.memory.data = m.data ∧ r.memory.size = m.size ∧
        bytesAt m.data m.offset (sizeof slot) = some r.dst) := by
  have hwrite : ∀ (s : List uint8) (n : Nat), n ≤ s.length →
      ∃ m1, m.writeDangerous policy junk s n = some m1 ∧
        m1.offset = m.offset + n ∧ m1.offset ≤ m1.size ∧ m1.data.length = m1.size ∧
        m.size ≤ m1.size ∧ (m.offset + n ≤ m.size → m1.size = m.size) ∧
        bytesAt m1.data m.offset n = some (s.take n) := by
    intro s n hn
    obtain ⟨g, gsize, hg, hfit, hge, hkeep, hw⟩ := writeDangerous_eq policy junk m s n hwf hn
    have hk : (s.take n).length = n := by rw [List.length_take]; omega
    refine ⟨_, hw, rfl, hfit, ?_, hge, fun h => (hkeep h).1, ?_⟩
    · simp only [List.length_append, List.length_take, List.length_drop]
      omega
    · have := bytesAt_written g (s.take n) m.offset (by omega) (g.drop (m.offset + n))
      rw [hk] at this
      exact this
  have hread : ∀ (d : List uint8) (n : Nat), n ≤ d.length → m.offset + n ≤ m.size →
      ∃ r bytes, m.readDangerous d n = some r ∧ r.ok = true ∧
        r.memory.offset = m.offset + n ∧ r.memory.data = m.data ∧ r.memory.size = m.size ∧
        bytesAt m.data m.offset n = some bytes ∧ r.dst = bytes ++ d.drop n := by
    intro d n hd hfit
    refine ⟨_, (m.data.drop m.offset).take n, readDangerous_success m d n hwf hfit hd,
      rfl, rfl, rfl, rfl, ?_, rfl⟩
    unfold bytesAt
    rw [if_pos (by omega)]
  refine ⟨hwrite src k hsrc, ?_, hread dst k hdst, ?_, ?_, ?_⟩
  · intro r hr hok
    exact readDangerous_offset m dst k r hr hok
  · intro v
    obtain ⟨m1, h1, h2, _, _, _, _, h7⟩ := hwrite v (sizeof v) (le_refl _)
    refine ⟨m1, h1, h2, ?_⟩
    rw [h7]
    simp [sizeof]
  · intro slot r hr hok
    exact readDangerous_offset m slot (sizeof slot) r hr hok
  · intro slot hfit
    obtain ⟨r, bytes, h1, h2, h3, h4, h5, h6, h7⟩ := hread slot (sizeof slot) (le_refl _) hfit
    refine ⟨r, h1, h2, h3, h4, h5, ?_⟩
    rw [h6, h7]
    simp [sizeof]

/-- C7 at a concrete state: a write of three bytes at offset 1 of a two-byte
store, under the doubling policy, and a typed read of two bytes at offset 1 of
a four-byte store. -/
theorem cursor_monotonicity_witness :
    (∃ m1, RawMemory.writeDangerous (fun s _ => 2 * s) (fun _ => 0) ⟨[7, 8], 2, 1⟩ [1, 2, 3] 3
        = some m1 ∧
      m1.offset = 1 + 3 ∧ m1.offset ≤ m1.size ∧ m1.data.length = m1.size ∧
      2 ≤ m1.size ∧ (1 + 3 ≤ 2 → m1.size = 2) ∧
      bytesAt m1.data 1 3 = some [1, 2, 3]) ∧
    ∃ r, RawMemory.read ⟨[5, 6, 7, 8], 4, 1⟩ [0, 0] = some r ∧ r.ok = true ∧
      r.memory.offset = 1 + 2 ∧ r.memory.data = [5, 6, 7, 8] ∧ r.memory.size = 4 ∧
      bytesAt [5, 6, 7, 8] 1 2 = some r.dst :=
  ⟨(cursor_monotonicity (fun s _ => 2 * s) (fun _ => 0) ⟨[7, 8], 2, 1⟩ [1, 2, 3] [0, 0, 0] 3
      (by decide) (by decide) (by decide)).1,
    (cursor_monotonicity (fun s _ => 2 * s) (fun _ => 0) ⟨[5, 6, 7, 8], 4, 1⟩ [] [] 0
      (by decide) (by decide) (by decide)).2.2.2.2.2 [0, 0] (by decide)⟩

end MathAnim
